import Mathlib

/-!
# Admin page (logout.js): reservation pipeline and session gate

A shallow embedding of `src/logout.js`: the Firestore values the page reads, the two
formatters, the admin role check, the snapshot callback (flatten, tag, sort, render) and the
auth-state callback, followed by the properties proved about them.

Scope of the model. Finite numbers are integers, so fractional amounts and the rounding of
floating point products are not covered. What the language leaves to the host (date
parsing, string to number conversion, string forms of numbers and objects, the local time
zone) is a parameter `Host`, and every general statement holds for every host.
`Array.prototype.sort` is a stable insertion sort; for a consistent comparator that is the
result every conforming engine gives. Property reads raise a `TypeError` on `null` and
`undefined`, and the comparator raises one when it calls a `toDate` that is no function;
limits of the engine (stack depth, argument count) are not modelled. A table row is the
markup string assigned to its `innerHTML`; the parsing of that markup by the browser is not
modelled.
-/

namespace AdminPage

/-! ## Values -/

/-- Number values. Finite numbers are modelled at integral values; `nan` and the two
infinities are kept apart because the program branches on `isNaN`. -/
inductive JSNum where
  | nan
  | inf (negative : Bool)
  | int (n : Int)
  deriving DecidableEq, Repr

/-- Values that a Firestore document (or a read from it) can put in front of the program.
`date t` is a `Date` object with time value `t` in milliseconds (`none` is an invalid date);
`ts t` is an object exposing a callable `toDate` (as a Firestore `Timestamp` does) whose call
returns a `Date` with time value `t`, and of which the program uses nothing else; `obj` is a
plain map of own fields, none of them a function. -/
inductive JSVal where
  | undefined
  | null
  | bool (b : Bool)
  | num (n : JSNum)
  | str (s : String)
  | date (t : Option Int)
  | ts (t : Option Int)
  | arr (xs : List JSVal)
  | obj (fs : List (String × JSVal))

/-- Own fields of a plain object, in insertion order. -/
abbrev Fields := List (String × JSVal)

/-- Values the program can throw: a `TypeError` of the language, or the error object with
which a Firestore call fails. -/
inductive JSError where
  | typeError (message : String)
  | firestoreError (message : String)
  deriving DecidableEq, Repr

/-- The `message` property of a thrown error. -/
def JSError.message : JSError → String
  | .typeError m => m
  | .firestoreError m => m

/-- ToBoolean. -/
def truthy : JSVal → Bool
  | .undefined => false
  | .null => false
  | .bool b => b
  | .num .nan => false
  | .num (.inf _) => true
  | .num (.int n) => decide (n ≠ 0)
  | .str s => decide (s ≠ "")
  | .date _ => true
  | .ts _ => true
  | .arr _ => true
  | .obj _ => true

/-- Value of field `k` in a field list, `undefined` when there is none. -/
def lookupField : Fields → String → JSVal
  | [], _ => .undefined
  | (k', v) :: fs, k => if k' = k then v else lookupField fs k

/-- Read of a data property `k` (one of the names the program reads: `reservation`, `role`,
`seconds`, `toDate`, ...) on a value other than `null` and `undefined`: plain objects
answer from their fields, every other value has no data property of such a name. The
callable `toDate` of an accessor object is no data property; the two places that call it
take the accessor object apart before they come here. -/
def getField : JSVal → String → JSVal
  | .obj fs, k => lookupField fs k
  | _, _ => .undefined

/-- Property read `v.k` as the language evaluates it: a `TypeError` on `null` and
`undefined`, `getField` otherwise. -/
def getProp (v : JSVal) (k : String) : Except JSError JSVal :=
  match v with
  | .undefined => .error (.typeError ("Cannot read properties of undefined (reading " ++ k ++ ")"))
  | .null => .error (.typeError ("Cannot read properties of null (reading " ++ k ++ ")"))
  | _ => .ok (getField v k)

/-- Array.isArray. -/
def isArray : JSVal → Bool
  | .arr _ => true
  | _ => false

/-- Assignment of field `k` in an object literal under construction: an existing field keeps
its place and takes the new value, a new field goes last. -/
def setField : Fields → String → JSVal → Fields
  | [], k, v => [(k, v)]
  | (k', v') :: fs, k, v => if k' = k then (k, v) :: fs else (k', v') :: setField fs k v

/-- Index-keyed fields `0, 1, ...` of a sequence of values. -/
def indexFields (xs : List JSVal) : Fields :=
  xs.enum.map (fun p => (toString p.1, p.2))

/-- Fields copied by an object spread `...v`: the own enumerable fields of `v`. A plain
object gives its fields, an array and a string their indexed elements (a string is read per
code point), a primitive and a `Date` give none; own fields of an accessor object are not
modelled. -/
def ownFields : JSVal → Fields
  | .obj fs => fs
  | .arr xs => indexFields xs
  | .str s => indexFields (s.data.map (fun c => JSVal.str (String.singleton c)))
  | _ => []

/-! ## Flattening (snapshot callback, first half) -/

/-- One document of a query snapshot: its key and what `data()` returns. -/
structure DocSnapshot where
  id : String
  data : JSVal

/-- The object literal built for one stored entry: a spread of `reservation` followed by
`userId: userId`. -/
def tagEntry (userId : String) (reservation : JSVal) : Fields :=
  setField (ownFields reservation) "userId" (.str userId)

/-- Body of the `snapshot.forEach` callback: `allReservations` before the document is
visited goes in, `allReservations` after it comes out. -/
def flattenDoc (allReservations : List Fields) (docSnapshot : DocSnapshot) :
    Except JSError (List Fields) :=
  let userId := docSnapshot.id
  let data := docSnapshot.data
  if truthy data then do
    let reservation ← getProp data "reservation"
    if truthy reservation then
      if isArray reservation then
        match reservation with
        | .arr entries => pure (allReservations ++ entries.map (tagEntry userId))
        | _ => pure allReservations
      else pure allReservations
    else pure allReservations
  else pure allReservations

/-- The flattening loop over a snapshot, starting from an empty `allReservations`. -/
def flatten (snapshot : List DocSnapshot) : Except JSError (List Fields) :=
  snapshot.foldlM flattenDoc []

/-- The `reservation` array of a document when that field is an array; `none` when the data
is missing or is no plain object, or when the field is absent, null or of another shape. -/
def reservationArray (d : DocSnapshot) : Option (List JSVal) :=
  match d.data with
  | .obj fs =>
    match lookupField fs "reservation" with
    | .arr entries => some entries
    | _ => none
  | _ => none

/-- What one document adds to the flattened list: its entries, each tagged with the
document key, when its `reservation` field is an array, nothing otherwise. -/
def contribution (d : DocSnapshot) : List Fields :=
  match reservationArray d with
  | some entries => entries.map (tagEntry d.id)
  | none => []

/-! ## Host conversions -/

/-- Calendar fields of an instant in the local time zone. -/
structure LocalTime where
  fullYear : Int
  month : Nat
  date : Nat
  hours : Nat
  minutes : Nat

/-- What the program takes from its host rather than from its own text: date parsing, string
to number conversion, rendering of numbers and objects as strings, and the local calendar.
Object conversions are taken to complete normally. -/
structure Host where
  /-- Time value of `Date.parse s`, `none` for `NaN`. -/
  dateParse : String → Option Int
  /-- Number denoted by a string, as `Number(s)` gives it. -/
  stringToNumber : String → JSNum
  /-- String form of a number. -/
  numberToString : JSNum → String
  /-- String form of an object value (array, plain object, `Date`, accessor object). -/
  objectToString : JSVal → String
  /-- Primitive (a string) to which an array, plain object or accessor object converts when a
  number or a date is asked of it. -/
  objectToPrimitive : JSVal → String
  /-- Local calendar fields of a time value. -/
  localTime : Int → LocalTime

/-- ToNumber. -/
def toNumber (H : Host) : JSVal → JSNum
  | .undefined => .nan
  | .null => .int 0
  | .bool b => .int (if b then 1 else 0)
  | .num n => n
  | .str s => H.stringToNumber s
  | .date (some t) => .int t
  | .date none => .nan
  | v => H.stringToNumber (H.objectToPrimitive v)

/-- ToString, as a template literal applies it to an interpolated value. -/
def toStr (H : Host) : JSVal → String
  | .undefined => "undefined"
  | .null => "null"
  | .bool b => if b then "true" else "false"
  | .num n => H.numberToString n
  | .str s => s
  | v => H.objectToString v

/-- Global `isNaN` on a number. -/
def isNaN : JSNum → Bool
  | .nan => true
  | _ => false

/-- Largest magnitude of a time value, in milliseconds. -/
def maxTime : Int := 8640000000000000

/-- TimeClip: the time value a `Date` takes from a number, `none` standing for `NaN`. -/
def timeClip : JSNum → Option Int
  | .int n => if -maxTime ≤ n ∧ n ≤ maxTime then some n else none
  | _ => none

/-- Time value of `new Date(v)`. -/
def newDate (H : Host) : JSVal → Option Int
  | .date t => t
  | .undefined => none
  | .null => some 0
  | .bool b => some (if b then 1 else 0)
  | .num n => timeClip n
  | .str s => H.dateParse s
  | v => H.dateParse (H.objectToPrimitive v)

/-- Product `x * 1000`. -/
def times1000 : JSNum → JSNum
  | .int n => .int (n * 1000)
  | .inf s => .inf s
  | .nan => .nan

/-- Strict equality `v === lit` against a primitive literal `lit`. -/
def strictEq : JSVal → JSVal → Bool
  | .undefined, .undefined => true
  | .null, .null => true
  | .bool a, .bool b => decide (a = b)
  | .num (.int a), .num (.int b) => decide (a = b)
  | .num (.inf a), .num (.inf b) => decide (a = b)
  | .str a, .str b => decide (a = b)
  | _, _ => false

/-- Loose comparison `v == null`. -/
def looseEqNull : JSVal → Bool
  | .undefined => true
  | .null => true
  | _ => false

/-! ## Formatters -/

/-- Decimal digits of a number with a comma before every group of three, given and returned
least significant digit first. -/
def groupReversed : List Char → List Char
  | a :: b :: c :: d :: rest => a :: b :: c :: ',' :: groupReversed (d :: rest)
  | ds => ds

/-- Grouped decimal form of a natural number, as in `1,000`. -/
def groupThousands (n : Nat) : String :=
  String.mk (groupReversed (Nat.toDigits 10 n).reverse).reverse

/-- Result of `Intl.NumberFormat` for `ko-KR`, currency `KRW`, narrow symbol: no
fraction digits, grouping by three, the sign before the symbol. -/
def wonFormat : JSNum → String
  | .int n => (if n < 0 then "-₩" else "₩") ++ groupThousands n.natAbs
  | .inf s => (if s then "-₩" else "₩") ++ "∞"
  | .nan => "₩NaN"

/-- Source function `formatPrice`. -/
def formatPrice (H : Host) (price : JSVal) : JSVal :=
  if looseEqNull price || strictEq price (.str "") then .str "없음"
  else
    let numPrice := toNumber H price
    if isNaN numPrice then price
    else .str (wonFormat numPrice)

/-- Time value of the `date` that `formatDate` builds for a truthy `timestamp`, by the
three-way branch of the source. `timestamp.toDate && typeof timestamp.toDate === 'function'`
holds of an accessor object and of nothing else: in a plain object a `toDate` field holds a
value that is no function. -/
def formatDateResolve (H : Host) (timestamp : JSVal) : Option Int :=
  match timestamp with
  | .ts t => t
  | _ =>
    if truthy (getField timestamp "seconds") then
      timeClip (times1000 (toNumber H (getField timestamp "seconds")))
    else newDate H timestamp

/-- `String(n).padStart(2, '0')`. -/
def padStart2 (s : String) : String :=
  String.mk (List.replicate (2 - s.length) '0') ++ s

/-- Source function `formatDate`. -/
def formatDate (H : Host) (timestamp : JSVal) : String :=
  if !truthy timestamp then "없음"
  else
    match formatDateResolve H timestamp with
    | none => "날짜 오류"
    | some t =>
      let year := (H.localTime t).fullYear
      let month := padStart2 (toString ((H.localTime t).month + 1))
      let day := padStart2 (toString (H.localTime t).date)
      let hour := padStart2 (toString (H.localTime t).hours)
      let minute := padStart2 (toString (H.localTime t).minutes)
      toString year ++ "년 " ++ month ++ "월 " ++ day ++ "일 " ++ hour ++ ": " ++ minute ++ "분"

/-! ## Role check -/

/-- Document snapshot returned by `getDoc`. -/
structure UserDoc where
  /-- Result of `exists()`. -/
  present : Bool
  /-- Result of `data()`. -/
  data : JSVal

/-- Outcome of building the reference to a profile record and awaiting `getDoc` on it: the
awaited promise rejects (or `doc` throws) with an error, or it fulfils with a snapshot. -/
inductive ReadOutcome where
  | failed (error : JSError)
  | fulfilled (userDoc : UserDoc)

/-- How an async function settles. -/
inductive Settled (α : Type) where
  | resolved (value : α)
  | rejected (error : JSError)

/-- The `try` block of `checkAdminRole`; an error result is a throw. `getDoc` gives, for
an identity id, the outcome of reading its record in `users`. -/
def checkAdminRoleTry (getDoc : String → ReadOutcome) (userId : String) :
    Except JSError Bool :=
  match getDoc userId with
  | .failed error => throw error
  | .fulfilled userDoc =>
    if userDoc.present then do
      let role ← getProp userDoc.data "role"
      if strictEq role (.str "admin") then pure true else pure false
    else pure false

/-- Source function `checkAdminRole`: how it settles, and what it writes to the console. -/
def checkAdminRole (getDoc : String → ReadOutcome) (userId : String) :
    Settled Bool × List String :=
  match checkAdminRoleTry getDoc userId with
  | .ok b => (.resolved b, [])
  | .error error => (.resolved false, ["관리자 여부 확인 실패: " ++ error.message])

/-! ## Sorting (snapshot callback, second half) -/

/-- Evaluation of `rd?.toDate?.()`: `none` when the chain short-circuits to `undefined`,
`some t` when `toDate` is called and returns a `Date` with time value `t`, a `TypeError`
when `toDate` is present but is not a function. -/
def optionalToDate (rd : JSVal) : Except JSError (Option (Option Int)) :=
  match rd with
  | .undefined => pure none
  | .null => pure none
  | .ts t => pure (some t)
  | v =>
    if looseEqNull (getField v "toDate") then pure none
    else throw (.typeError "a.reservationDate?.toDate is not a function")

/-- Time value of `a.reservationDate?.toDate?.() || new Date(a.reservationDate)`; a `Date`
is truthy, so the right operand is used exactly when the chain gave `undefined`. -/
def effectiveDate (H : Host) (a : Fields) : Except JSError (Option Int) := do
  let rd := lookupField a "reservationDate"
  match ← optionalToDate rd with
  | some t => pure t
  | none => pure (newDate H rd)

/-- Difference `dateB - dateA` of two `Date` objects given by their time values. The sign of
the result is that of the exact difference. -/
def dateDiff (dateB dateA : Option Int) : JSNum :=
  match dateB, dateA with
  | some b, some a => .int (b - a)
  | _, _ => .nan

/-- The comparator passed to `sort`. -/
def compareReservations (H : Host) (a b : Fields) : Except JSError JSNum := do
  let dateA ← effectiveDate H a
  let dateB ← effectiveDate H b
  pure (dateDiff dateB dateA)

/-- SortCompare on the comparator's result: `NaN` counts as `+0`. -/
def sortCompare : JSNum → Int
  | .nan => 0
  | .inf true => -1
  | .inf false => 1
  | .int n => n

/-- One pass of the insertion loop: `item` is placed into the already sorted part, which is
held last element first; elements are shifted while `comparefn(swap, item) > 0`. -/
def insertItem {α ε : Type} (comparefn : α → α → Except ε JSNum) (item : α) :
    List α → Except ε (List α)
  | [] => pure [item]
  | swap :: rest => do
    let v ← comparefn swap item
    if sortCompare v ≤ 0 then pure (item :: swap :: rest)
    else do
      let placed ← insertItem comparefn item rest
      pure (swap :: placed)

/-- Model of `Array.prototype.sort(comparefn)`: a stable insertion sort. For a consistent
comparator the language fixes the result (sorted, equal elements in their original order);
for any other comparator the order is left to the engine, and the model follows the plain
insertion loop. An exception of the comparator ends the sort. -/
def arraySort {α ε : Type} (comparefn : α → α → Except ε JSNum) (xs : List α) :
    Except ε (List α) := do
  let sortedPart ← xs.foldlM (fun acc item => insertItem comparefn item acc) []
  pure sortedPart.reverse

/-- The sort of the snapshot callback. -/
def sortReservations (H : Host) (allReservations : List Fields) :
    Except JSError (List Fields) :=
  arraySort (compareReservations H) allReservations

/-! ## Rendering -/

/-- A table row, given by its markup: the string assigned to the `innerHTML` of its `tr`.
The browser parses that string, so the cells of the row are whatever the markup spells,
stored values included: they are written into it as they are. -/
abbrev Row := String

/-- The row written when there is nothing to show (the markup inside the `tr` of the string
assigned to `userDataList.innerHTML`). -/
def placeholderRow : Row := "<td colspan='6'> 예약 데이터가 없습니다.</td>"

/-- Value of `x || "없음"` interpolated into a cell. -/
def orNone (H : Host) (x : JSVal) : String :=
  if truthy x then toStr H x else "없음"

/-- The template literal assigned to `tr.innerHTML` for one reservation, line breaks and
indentation included. -/
def reservationRow (H : Host) (reservation : Fields) : Row :=
  "\n        <td>" ++ orNone H (lookupField reservation "reservationId") ++ "</td>"
    ++ "\n        <td>" ++ orNone H (lookupField reservation "customerName") ++ "</td>"
    ++ "\n        <td>" ++ formatDate H (lookupField reservation "reservationDate") ++ "</td>"
    ++ "\n        <td>" ++ toStr H (formatPrice H (lookupField reservation "amount")) ++ "원</td>"
    ++ "\n        <td>" ++ orNone H (lookupField reservation "seatInfo") ++ "</td>"
    ++ "\n        "

/-- Number of places at which the characters `<td>` stand in a sequence of characters. -/
def countOpeningCells : List Char → Nat
  | [] => 0
  | c :: rest =>
    (if (c :: rest).take 4 = ['<', 't', 'd', '>'] then 1 else 0) + countOpeningCells rest

/-- Number of opening `<td>` tags in the markup of a row. -/
def openingCells (markup : Row) : Nat :=
  countOpeningCells markup.data

/-- The parts of the page the program writes after sign-in. -/
structure Page where
  /-- Text of `statusDisplay` when that element exists. -/
  statusDisplay : Option String
  /-- Rows of `userDataList`. -/
  userDataList : List Row

/-- Source function `renderReservationData`; `none` stands for an absent (falsy) argument. The
contents of `userDataList` are dropped first, then either the placeholder row is written or
one row per reservation is appended. -/
def renderReservationData (H : Host) (reservations : Option (List Fields)) (page : Page) :
    Page :=
  let cleared : Page := Page.mk page.statusDisplay []
  match reservations with
  | none => Page.mk cleared.statusDisplay [placeholderRow]
  | some rs =>
    if strictEq (.bool (decide (rs.length = 0))) (.num (.int 0)) then
      Page.mk cleared.statusDisplay [placeholderRow]
    else
      rs.foldl (fun pg reservation =>
        Page.mk pg.statusDisplay (pg.userDataList ++ [reservationRow H reservation])) cleared

/-! ## Snapshot callback -/

/-- Status text written after flattening. -/
def countStatus (count : Nat) : String :=
  "실시간 데이터 감지 중 (" ++ toString count ++ "건)"

/-- The success callback given to `onSnapshot`. -/
def onSnapshotNext (H : Host) (snapshot : List DocSnapshot) (page : Page) :
    Except JSError Page := do
  let allReservations ← flatten snapshot
  let counted := Page.mk (page.statusDisplay.map (fun _ => countStatus allReservations.length))
    page.userDataList
  let sortedReservations ← sortReservations H allReservations
  pure (renderReservationData H (some sortedReservations) counted)

/-- The list handed to `renderReservationData` by the success callback. -/
def renderedList (H : Host) (snapshot : List DocSnapshot) : Except JSError (List Fields) := do
  let allReservations ← flatten snapshot
  sortReservations H allReservations

/-- The error callback given to `onSnapshot`. -/
def onSnapshotError (page : Page) : Page :=
  Page.mk (page.statusDisplay.map (fun _ => "데이터 로딩 실패")) page.userDataList

/-! ## Auth-state callback -/

/-- The signed-in identity handed to the auth-state callback. -/
structure User where
  uid : String
  displayName : JSVal

/-- Observable steps of the auth-state callback, in program order. -/
inductive Effect where
  | checkAdmin (uid : String)
  | setWelcome (text : String)
  | setupRealtimeListener
  | addLogoutListener
  | alert (message : String)
  | signOut
  | redirect (href : String)
  deriving DecidableEq, Repr

/-- The callback given to `onAuthStateChanged`: the steps it takes for an identity (`none`
for a signed-out state), given the profile store and whether the awaited `signOut`
resolves. An awaited rejection ends the callback where it stands. -/
def onAuthStateChangedCallback (H : Host) (getDoc : String → ReadOutcome)
    (user : Option User) (signOutResolves : Bool) : List Effect :=
  match user with
  | some u =>
    match (checkAdminRole getDoc u.uid).1 with
    | .rejected _ => [.checkAdmin u.uid]
    | .resolved isAdmin =>
      if isAdmin then
        let displayName := if truthy u.displayName then toStr H u.displayName else "관리자"
        [.checkAdmin u.uid, .setWelcome ("환영합니다 " ++ displayName ++ "님"),
         .setupRealtimeListener, .addLogoutListener]
      else
        [.checkAdmin u.uid, .alert "관리자 권한이 필요합니다.", .signOut]
          ++ (if signOutResolves then [.redirect "index.html"] else [])
  | none => [.alert "로그인이 필요합니다.", .redirect "index.html"]

/-! ## Vocabulary of the properties -/

/-- Number of entries a document holds in a `reservation` array, zero when it has none. -/
def entryCount (d : DocSnapshot) : Nat :=
  match reservationArray d with
  | some entries => entries.length
  | none => 0

/-- Time value under which the sort sees an entry, when the entry resolves to a valid date;
zero otherwise. -/
def dateOf (H : Host) (e : Fields) : Int :=
  match effectiveDate H e with
  | .ok (some t) => t
  | _ => 0

/-- The entry resolves to a valid date in the comparator. -/
def ValidDate (H : Host) (e : Fields) : Prop :=
  ∃ t, effectiveDate H e = .ok (some t)

/-- The comparator can resolve a date for the entry without raising: the entry's
`reservationDate` is no plain object with a `toDate` field that is not a function. -/
def Resolvable (e : Fields) : Prop :=
  ∃ r, optionalToDate (lookupField e "reservationDate") = .ok r


/-! ## A sample host

A host with a UTC clock, used to run the program on examples. Its two parsers read only the
forms the examples use (`YYYY-MM-DD` dates, decimal integers) and take every other string
as unparseable. -/

/-- Milliseconds in a day. -/
def msPerDay : Int := 86400000

/-- Days from 1970-01-01 to a date of the proleptic Gregorian calendar. -/
def daysFromCivil (year : Int) (month day : Nat) : Int :=
  let y := if month ≤ 2 then year - 1 else year
  let era := y / 400
  let yoe := y - era * 400
  let mp : Int := if month > 2 then (month : Int) - 3 else (month : Int) + 9
  let doy := (153 * mp + 2) / 5 + (day : Int) - 1
  let doe := yoe * 365 + yoe / 4 - yoe / 100 + doy
  era * 146097 + doe - 719468

/-- Year, month (1 to 12) and day of the month of a day count from 1970-01-01. -/
def civilFromDays (days : Int) : Int × Nat × Nat :=
  let z := days + 719468
  let era := z / 146097
  let doe := z - era * 146097
  let yoe := (doe - doe / 1460 + doe / 36524 - doe / 146096) / 365
  let doy := doe - (365 * yoe + yoe / 4 - yoe / 100)
  let mp := (5 * doy + 2) / 153
  let d := doy - (153 * mp + 2) / 5 + 1
  let m := if mp < 10 then mp + 3 else mp - 9
  let y := yoe + era * 400 + (if m ≤ 2 then 1 else 0)
  (y, m.toNat, d.toNat)

/-- Calendar fields of a time value on a UTC clock. -/
def utcLocalTime (t : Int) : LocalTime :=
  let days := t / msPerDay
  let rest := t % msPerDay
  let ymd := civilFromDays days
  LocalTime.mk ymd.1 (ymd.2.1 - 1) ymd.2.2 (rest / 3600000).toNat (rest / 60000 % 60).toNat

/-- Reads `YYYY-MM-DD` as midnight UTC of that day; `none` for any other string and for a
day that does not exist. -/
def isoDateParse (s : String) : Option Int :=
  match s.data with
  | [y1, y2, y3, y4, '-', m1, m2, '-', d1, d2] =>
    if [y1, y2, y3, y4, m1, m2, d1, d2].all Char.isDigit then
      let digit : Char → Nat := fun c => c.toNat - '0'.toNat
      let year : Int := ((digit y1 * 1000 + digit y2 * 100 + digit y3 * 10 + digit y4 : Nat) : Int)
      let month := digit m1 * 10 + digit m2
      let day := digit d1 * 10 + digit d2
      let days := daysFromCivil year month day
      if 1 ≤ month ∧ month ≤ 12 ∧ 1 ≤ day ∧ civilFromDays days = (year, month, day) then
        some (days * msPerDay)
      else none
    else none
  | _ => none

/-- Reads a decimal integer, blank-trimmed, with an optional sign; the blank string is zero. -/
def decimalToNumber (s : String) : JSNum :=
  let body := s.trim
  if body = "" then .int 0
  else
    let digits := if body.startsWith "-" || body.startsWith "+" then body.drop 1 else body
    match digits.toNat? with
    | some n => if body.startsWith "-" then .int (-(n : Int)) else .int n
    | none => .nan

/-- String form of a number of the model. -/
def decimalOfNumber : JSNum → String
  | .nan => "NaN"
  | .inf s => if s then "-Infinity" else "Infinity"
  | .int n => toString n

/-- Decimal form of a number, padded with zeros on the left to `width` characters. -/
def padDecimal (width : Nat) (n : Int) : String :=
  String.mk (List.replicate (width - (toString n).length) '0') ++ toString n

/-- Form of `Date.prototype.toString` on a UTC clock. -/
def utcDateString (t : Int) : String :=
  let days := t / msPerDay
  let rest := t % msPerDay
  let ymd := civilFromDays days
  let weekday := ["Sun", "Mon", "Tue", "Wed", "Thu", "Fri", "Sat"].getD ((days + 4) % 7).toNat ""
  let month := ["Jan", "Feb", "Mar", "Apr", "May", "Jun", "Jul", "Aug", "Sep", "Oct", "Nov",
    "Dec"].getD (ymd.2.1 - 1) ""
  weekday ++ " " ++ month ++ " " ++ padDecimal 2 ymd.2.2 ++ " " ++ padDecimal 4 ymd.1 ++ " "
    ++ padDecimal 2 (rest / 3600000) ++ ":" ++ padDecimal 2 (rest / 60000 % 60) ++ ":"
    ++ padDecimal 2 (rest / 1000 % 60) ++ " GMT+0000 (Coordinated Universal Time)"

/-- Form of `toString` of a Firestore timestamp taken at a whole millisecond. -/
def timestampString (t : Int) : String :=
  "Timestamp(seconds=" ++ toString (t / 1000) ++ ", nanoseconds="
    ++ toString (t % 1000 * 1000000) ++ ")"

/-- Form of `valueOf` of a Firestore timestamp taken at a whole millisecond: seconds counted
from year 1, twelve digits, a dot, nanoseconds, nine digits. -/
def timestampValue (t : Int) : String :=
  padDecimal 12 (t / 1000 + 62135596800) ++ "." ++ padDecimal 9 (t % 1000 * 1000000)

mutual
/-- String form of a value on the sample host: arrays join their elements with commas
(`null` and `undefined` as empty) and a plain object is `[object Object]`. -/
def sampleString : JSVal → String
  | .undefined => "undefined"
  | .null => "null"
  | .bool b => if b then "true" else "false"
  | .num n => decimalOfNumber n
  | .str s => s
  | .date none => "Invalid Date"
  | .date (some t) => utcDateString t
  | .ts none => "[object Object]"
  | .ts (some t) => timestampString t
  | .obj _ => "[object Object]"
  | .arr xs => ",".intercalate (sampleElements xs)
/-- String forms of the elements of an array, as `join` takes them. -/
def sampleElements : List JSVal → List String
  | [] => []
  | .undefined :: xs => "" :: sampleElements xs
  | .null :: xs => "" :: sampleElements xs
  | x :: xs => sampleString x :: sampleElements xs
end

/-- Primitive of an object on the sample host: a Firestore timestamp gives its `valueOf`
string, every other object its string form. -/
def samplePrimitive : JSVal → String
  | .ts (some t) => timestampValue t
  | v => sampleString v

/-- The sample host. -/
def sampleHost : Host :=
  Host.mk isoDateParse decimalToNumber decimalOfNumber sampleString samplePrimitive utcLocalTime

/-! ## Example inputs -/

/-- Midnight UTC of 2024-01-01, 2024-02-01 and 2024-03-01 as time values. -/
def jan1 : Int := 1704067200000

/-- See `jan1`. -/
def feb1 : Int := 1706745600000

/-- See `jan1`. -/
def mar1 : Int := 1709251200000

/-- A stored reservation with an id and a Firestore timestamp. -/
def storedEntry (reservationId : String) (t : Int) : JSVal :=
  .obj [("reservationId", .str reservationId), ("reservationDate", .ts (some t))]

/-- The flattened copy of `storedEntry` under an owner. -/
def taggedEntry (reservationId : String) (t : Int) (owner : String) : Fields :=
  [("reservationId", .str reservationId), ("reservationDate", .ts (some t)),
   ("userId", .str owner)]

/-- Two owner documents: `A` holds reservations dated 2024-01-01 and 2024-03-01, `B` holds
one dated 2024-02-01. -/
def scenarioSnapshot : List DocSnapshot :=
  [ DocSnapshot.mk "A" (.obj [("reservation", .arr [storedEntry "a1" jan1, storedEntry "a2" mar1])]),
    DocSnapshot.mk "B" (.obj [("reservation", .arr [storedEntry "b1" feb1])]) ]

/-- A signed-in identity without a display name. -/
def sampleUser : User := User.mk "u1" .null

/-- A profile store in which every record exists and has the role `user`. -/
def nonAdminStore : String → ReadOutcome :=
  fun _ => .fulfilled (UserDoc.mk true (.obj [("role", .str "user")]))

/-- A profile store in which every record exists and has the role `admin`. -/
def adminStore : String → ReadOutcome :=
  fun _ => .fulfilled (UserDoc.mk true (.obj [("role", .str "admin")]))

/-- The same two owner documents with the dates stored as strings. -/
def scenarioIsoSnapshot : List DocSnapshot :=
  [ DocSnapshot.mk "A" (.obj [("reservation", .arr
      [.obj [("reservationDate", .str "2024-01-01")],
       .obj [("reservationDate", .str "2024-03-01")]])]),
    DocSnapshot.mk "B" (.obj [("reservation", .arr
      [.obj [("reservationDate", .str "2024-02-01")]])]) ]

/-- A flattened reservation whose customer name holds markup. -/
def markupEntry : Fields :=
  [("reservationId", .str "r1"), ("customerName", .str "a</td><td>b"),
   ("userId", .str "A")]

/-- A plain map whose `toDate` field is a string. -/
def toDateStringObject : JSVal :=
  .obj [("toDate", .str "2024-01-01")]

/-- One owner document with four reservations: one dated 2024-01-01, two without a
`reservationDate`, one dated 2024-03-01. -/
def mixedSnapshot : List DocSnapshot :=
  [ DocSnapshot.mk "A" (.obj [("reservation", .arr
      [storedEntry "r1" jan1, .obj [("reservationId", .str "r2")],
       .obj [("reservationId", .str "r3")], storedEntry "r4" mar1])]) ]

/-- The flattened copy of a reservation that has an id and no date. -/
def undatedEntry (reservationId owner : String) : Fields :=
  [("reservationId", .str reservationId), ("userId", .str owner)]

/-- A timestamp stored as a plain map of seconds and nanoseconds. -/
def secondsObject : JSVal :=
  .obj [("seconds", .num (.int 1700000000)), ("nanoseconds", .num (.int 0))]

/-! ## Flattening: totality and length -/

theorem flattenDoc_eq (acc : List Fields) (d : DocSnapshot) :
    flattenDoc acc d = .ok (acc ++ contribution d) := by
  obtain ⟨id, data⟩ := d
  cases data with
  | obj fs =>
    simp only [flattenDoc, truthy, getProp, getField, contribution, reservationArray]
    cases h : lookupField fs "reservation" <;>
      simp [truthy, isArray, pure, Except.pure, bind, Except.bind]
  | _ => simp [flattenDoc, truthy, getProp, getField, contribution, reservationArray, isArray,
      pure, Except.pure, bind, Except.bind]

theorem flatten_eq (snapshot : List DocSnapshot) :
    flatten snapshot = .ok (snapshot.flatMap contribution) := by
  have key : ∀ (l : List DocSnapshot) (acc : List Fields),
      l.foldlM flattenDoc acc = .ok (acc ++ l.flatMap contribution) := by
    intro l
    induction l with
    | nil => intro acc; simp [pure, Except.pure]
    | cons d ds ih =>
      intro acc
      simp [List.foldlM_cons, flattenDoc_eq, bind, Except.bind, ih]
  simpa [flatten] using key snapshot []

/-! ## The sort on a comparator given by a key -/

section SortLemmas

variable {α ε : Type}

theorem insertItem_of_key (cmp : α → α → Except ε JSNum) (key : α → Int) (item : α) :
    ∀ acc : List α, (∀ x ∈ acc, cmp x item = .ok (.int (key item - key x))) →
      insertItem cmp item acc = .ok (List.orderedInsert (fun a b => key a ≤ key b) item acc)
  | [], _ => rfl
  | swap :: rest, h => by
    have hswap := h swap (List.mem_cons_self _ _)
    have hrest := insertItem_of_key cmp key item rest
      (fun x hx => h x (List.mem_cons_of_mem _ hx))
    by_cases hle : key item ≤ key swap
    · simp [insertItem, hswap, bind, Except.bind, sortCompare, hle, pure, Except.pure]
    · simp [insertItem, hswap, bind, Except.bind, sortCompare, hle, hrest, pure, Except.pure]

theorem ok_bind {β : Type} (a : α) (f : α → Except ε β) : (Except.ok a >>= f) = f a := rfl

theorem foldlM_insertItem_of_key (cmp : α → α → Except ε JSNum) (key : α → Int)
    (P : α → Prop) (hcmp : ∀ x y, P x → P y → cmp x y = .ok (.int (key y - key x))) :
    ∀ (l acc : List α), (∀ x ∈ l, P x) → (∀ x ∈ acc, P x) →
      l.foldlM (fun acc item => insertItem cmp item acc) acc
        = .ok (l.foldl (fun acc item => List.orderedInsert (fun a b => key a ≤ key b) item acc)
            acc)
  | [], acc, _, _ => rfl
  | item :: l, acc, hl, hacc => by
    have hitem := hl item (List.mem_cons_self _ _)
    have hins := insertItem_of_key cmp key item acc (fun x hx => hcmp x item (hacc x hx) hitem)
    have hnext : ∀ x ∈ List.orderedInsert (fun a b => key a ≤ key b) item acc, P x := by
      intro x hx
      rcases (List.mem_orderedInsert _).1 hx with rfl | hx
      · exact hitem
      · exact hacc x hx
    have ih := foldlM_insertItem_of_key cmp key P hcmp l _
      (fun x hx => hl x (List.mem_cons_of_mem _ hx)) hnext
    rw [List.foldlM_cons, hins, ok_bind, ih, List.foldl_cons]

theorem foldl_orderedInsert (r : α → α → Prop) [DecidableRel r] :
    ∀ (l acc : List α),
      l.foldl (fun acc item => List.orderedInsert r item acc) acc
        = List.foldr (List.orderedInsert r) acc l.reverse
  | [], _ => rfl
  | item :: l, acc => by
    rw [List.foldl_cons, foldl_orderedInsert r l, List.reverse_cons, List.foldr_append]
    rfl

theorem foldr_orderedInsert_nil (r : α → α → Prop) [DecidableRel r] :
    ∀ l : List α, List.foldr (List.orderedInsert r) [] l = List.insertionSort r l
  | [] => rfl
  | a :: l => by simp [foldr_orderedInsert_nil r l]

theorem arraySort_of_key (cmp : α → α → Except ε JSNum) (key : α → Int)
    (P : α → Prop) (hcmp : ∀ x y, P x → P y → cmp x y = .ok (.int (key y - key x)))
    (l : List α) (hl : ∀ x ∈ l, P x) :
    arraySort cmp l
      = .ok (List.insertionSort (fun a b => key a ≤ key b) l.reverse).reverse := by
  have h := foldlM_insertItem_of_key cmp key P hcmp l [] hl (by simp)
  unfold arraySort
  rw [h, ok_bind, foldl_orderedInsert, foldr_orderedInsert_nil]
  rfl

theorem filter_orderedInsert (key : α → Int) (t : Int) (a : α) :
    ∀ l : List α,
      (List.orderedInsert (fun a b => key a ≤ key b) a l).filter (fun e => decide (key e = t))
        = (a :: l).filter (fun e => decide (key e = t))
  | [] => rfl
  | b :: l => by
    by_cases hab : key a ≤ key b
    · simp [List.orderedInsert, hab]
    · have ih := filter_orderedInsert key t a l
      simp only [List.orderedInsert, hab, if_false, List.filter_cons] at ih ⊢
      by_cases hb : key b = t
      · have ha : key a ≠ t := by omega
        simp [hb, ha] at ih ⊢
        exact ih
      · simp [hb] at ih ⊢
        exact ih

theorem filter_insertionSort (key : α → Int) (t : Int) :
    ∀ l : List α,
      (List.insertionSort (fun a b => key a ≤ key b) l).filter (fun e => decide (key e = t))
        = l.filter (fun e => decide (key e = t))
  | [] => rfl
  | a :: l => by
    rw [List.insertionSort, filter_orderedInsert, List.filter_cons, List.filter_cons,
      filter_insertionSort key t l]

end SortLemmas

theorem error_bind {α ε β : Type} (e : ε) (f : α → Except ε β) :
    (Except.error e >>= f) = Except.error e := rfl

theorem insertItem_perm {α ε : Type} (cmp : α → α → Except ε JSNum) (item : α) :
    ∀ (acc res : List α), insertItem cmp item acc = .ok res → res.Perm (item :: acc)
  | [], res, h => by
    cases h
    exact List.Perm.refl _
  | swap :: rest, res, h => by
    unfold insertItem at h
    cases hv : cmp swap item with
    | error e => rw [hv, error_bind] at h; cases h
    | ok v =>
      rw [hv, ok_bind] at h
      by_cases hle : sortCompare v ≤ 0
      · rw [if_pos hle] at h
        cases h
        exact List.Perm.refl _
      · rw [if_neg hle] at h
        cases hp : insertItem cmp item rest with
        | error e => rw [hp, error_bind] at h; cases h
        | ok placed =>
          rw [hp, ok_bind] at h
          cases h
          exact ((insertItem_perm cmp item rest placed hp).cons swap).trans
            (List.Perm.swap item swap rest)

theorem foldlM_insertItem_perm {α ε : Type} (cmp : α → α → Except ε JSNum) :
    ∀ (l acc res : List α),
      l.foldlM (fun acc item => insertItem cmp item acc) acc = .ok res →
        res.Perm (l ++ acc)
  | [], acc, res, h => by
    cases h
    exact List.Perm.refl _
  | item :: l, acc, res, h => by
    rw [List.foldlM_cons] at h
    cases hi : insertItem cmp item acc with
    | error e => rw [hi, error_bind] at h; cases h
    | ok placed =>
      rw [hi, ok_bind] at h
      have h1 := foldlM_insertItem_perm cmp l placed res h
      have h2 := insertItem_perm cmp item acc placed hi
      exact h1.trans ((h2.append_left l).trans List.perm_middle)

theorem arraySort_perm {α ε : Type} (cmp : α → α → Except ε JSNum) (l out : List α)
    (h : arraySort cmp l = .ok out) : out.Perm l := by
  unfold arraySort at h
  cases hf : l.foldlM (fun acc item => insertItem cmp item acc) [] with
  | error e => rw [hf, error_bind] at h; cases h
  | ok sortedPart =>
    rw [hf, ok_bind] at h
    cases h
    have := foldlM_insertItem_perm cmp l [] sortedPart hf
    exact (List.reverse_perm _).trans (by simpa using this)

theorem insertItem_total {α ε : Type} (cmp : α → α → Except ε JSNum) (item : α) :
    ∀ acc : List α, (∀ x ∈ acc, ∃ v, cmp x item = .ok v) →
      ∃ res, insertItem cmp item acc = .ok res
  | [], _ => ⟨[item], rfl⟩
  | swap :: rest, h => by
    obtain ⟨v, hv⟩ := h swap (List.mem_cons_self _ _)
    obtain ⟨placed, hp⟩ := insertItem_total cmp item rest
      (fun x hx => h x (List.mem_cons_of_mem _ hx))
    unfold insertItem
    rw [hv, ok_bind]
    by_cases hle : sortCompare v ≤ 0
    · exact ⟨_, by rw [if_pos hle]; rfl⟩
    · exact ⟨swap :: placed, by rw [if_neg hle, hp, ok_bind]; rfl⟩

theorem foldlM_insertItem_total {α ε : Type} (cmp : α → α → Except ε JSNum) (P : α → Prop)
    (hcmp : ∀ x y, P x → P y → ∃ v, cmp x y = .ok v) :
    ∀ (l acc : List α), (∀ x ∈ l, P x) → (∀ x ∈ acc, P x) →
      ∃ res, l.foldlM (fun acc item => insertItem cmp item acc) acc = .ok res
  | [], acc, _, _ => ⟨acc, rfl⟩
  | item :: l, acc, hl, hacc => by
    have hitem := hl item (List.mem_cons_self _ _)
    obtain ⟨placed, hp⟩ := insertItem_total cmp item acc
      (fun x hx => hcmp x item (hacc x hx) hitem)
    have hplaced : ∀ x ∈ placed, P x := by
      intro x hx
      rcases List.mem_cons.1 ((insertItem_perm cmp item acc placed hp).subset hx) with rfl | hx
      · exact hitem
      · exact hacc x hx
    obtain ⟨res, hres⟩ := foldlM_insertItem_total cmp P hcmp l placed
      (fun x hx => hl x (List.mem_cons_of_mem _ hx)) hplaced
    exact ⟨res, by rw [List.foldlM_cons, hp, ok_bind, hres]⟩

theorem arraySort_total {α ε : Type} (cmp : α → α → Except ε JSNum) (P : α → Prop)
    (hcmp : ∀ x y, P x → P y → ∃ v, cmp x y = .ok v) (l : List α) (hl : ∀ x ∈ l, P x) :
    ∃ out, arraySort cmp l = .ok out := by
  obtain ⟨res, hres⟩ := foldlM_insertItem_total cmp P hcmp l [] hl (by simp)
  exact ⟨res.reverse, by unfold arraySort; rw [hres, ok_bind]; rfl⟩

/-! ## Tagged copies -/

theorem lookupField_setField (k : String) (v : JSVal) (k' : String) :
    ∀ fs : Fields,
      lookupField (setField fs k v) k' = if k = k' then v else lookupField fs k'
  | [] => by simp [setField, lookupField]
  | (k0, v0) :: fs => by
    by_cases h0 : k0 = k
    · subst h0
      by_cases h1 : k0 = k' <;> simp [setField, lookupField, h1]
    · by_cases h1 : k0 = k'
      · subst h1
        have : ¬ k = k0 := fun h => h0 h.symm
        simp [setField, lookupField, h0, this]
      · simp [setField, lookupField, h0, h1, lookupField_setField k v k' fs]

theorem tagEntry_userId (userId : String) (reservation : JSVal) :
    lookupField (tagEntry userId reservation) "userId" = .str userId := by
  simp [tagEntry, lookupField_setField]

theorem tagEntry_other (userId : String) (reservation : JSVal) (k : String)
    (hk : k ≠ "userId") :
    lookupField (tagEntry userId reservation) k = lookupField (ownFields reservation) k := by
  have : ¬ "userId" = k := fun h => hk h.symm
  simp [tagEntry, lookupField_setField, this]

theorem mem_contribution (d : DocSnapshot) (x : Fields) (hx : x ∈ contribution d) :
    ∃ entries, reservationArray d = some entries ∧ ∃ e ∈ entries, x = tagEntry d.id e := by
  unfold contribution at hx
  cases h : reservationArray d with
  | none => simp [h] at hx
  | some entries =>
    simp only [h, List.mem_map] at hx
    obtain ⟨e, he, rfl⟩ := hx
    exact ⟨entries, rfl, e, he, rfl⟩

theorem renderedList_eq (H : Host) (snapshot : List DocSnapshot) :
    renderedList H snapshot = sortReservations H (snapshot.flatMap contribution) := by
  unfold renderedList
  rw [flatten_eq, ok_bind]

theorem length_flatMap_contribution :
    ∀ snapshot : List DocSnapshot,
      (snapshot.flatMap contribution).length = (snapshot.map entryCount).sum
  | [] => rfl
  | d :: ds => by
    have hd : (contribution d).length = entryCount d := by
      unfold contribution entryCount
      cases reservationArray d <;> simp
    simp [List.flatMap_cons, hd, length_flatMap_contribution ds]

theorem validDate_eq (H : Host) (e : Fields) (h : ValidDate H e) :
    effectiveDate H e = .ok (some (dateOf H e)) := by
  obtain ⟨t, ht⟩ := h
  simp [dateOf, ht]

theorem compareReservations_valid (H : Host) (a b : Fields) (ha : ValidDate H a)
    (hb : ValidDate H b) :
    compareReservations H a b = .ok (.int (dateOf H b - dateOf H a)) := by
  unfold compareReservations
  rw [validDate_eq H a ha, ok_bind, validDate_eq H b hb, ok_bind]
  rfl

theorem sortReservations_valid (H : Host) (l : List Fields) (hvalid : ∀ e ∈ l, ValidDate H e) :
    sortReservations H l
      = .ok (List.insertionSort (fun a b => dateOf H a ≤ dateOf H b) l.reverse).reverse :=
  arraySort_of_key (compareReservations H) (dateOf H) (ValidDate H)
    (fun x y hx hy => compareReservations_valid H x y hx hy) l hvalid

theorem descending_insertionSort_reverse (H : Host) (l : List Fields) :
    (List.insertionSort (fun a b => dateOf H a ≤ dateOf H b) l).reverse.Pairwise
      (fun a b => dateOf H b ≤ dateOf H a) := by
  haveI : IsTotal Fields (fun a b => dateOf H a ≤ dateOf H b) :=
    ⟨fun a b => le_total (dateOf H a) (dateOf H b)⟩
  haveI : IsTrans Fields (fun a b => dateOf H a ≤ dateOf H b) :=
    ⟨fun _ _ _ hab hbc => le_trans hab hbc⟩
  have hs := List.sorted_insertionSort (fun a b => dateOf H a ≤ dateOf H b) l
  exact List.pairwise_reverse.2 hs

theorem descending_keys_unique (H : Host) (l1 l2 : List Fields) (hp : l1.Perm l2)
    (h1 : l1.Pairwise (fun a b => dateOf H b ≤ dateOf H a))
    (h2 : l2.Pairwise (fun a b => dateOf H b ≤ dateOf H a)) :
    l1.map (dateOf H) = l2.map (dateOf H) := by
  have s1 : (l1.map (dateOf H)).Sorted (fun x y => y ≤ x) := by
    simpa [List.Sorted, List.pairwise_map] using h1
  have s2 : (l2.map (dateOf H)).Sorted (fun x y => y ≤ x) := by
    simpa [List.Sorted, List.pairwise_map] using h2
  haveI : IsAntisymm Int (fun x y => y ≤ x) := ⟨fun _ _ hab hba => le_antisymm hba hab⟩
  exact List.eq_of_perm_of_sorted (hp.map _) s1 s2

/-- A descending arrangement is fixed by the order within each class of equal keys. -/
theorem stable_descending_unique {α : Type} (key : α → Int) :
    ∀ (out1 out2 : List α),
      out1.Pairwise (fun a b => key b ≤ key a) →
      out2.Pairwise (fun a b => key b ≤ key a) →
      (∀ t : Int, out1.filter (fun e => decide (key e = t))
        = out2.filter (fun e => decide (key e = t))) →
      out1 = out2
  | [], out2, _, _, h => by
    cases out2 with
    | nil => rfl
    | cons b bs =>
      have := h (key b)
      simp at this
  | a :: as, out2, h1, h2, h => by
    cases out2 with
    | nil =>
      have := h (key a)
      simp at this
    | cons b bs =>
      have hab : key b = key a := by
        by_contra hne
        have ha : a ∈ (b :: bs).filter (fun e => decide (key e = key a)) := by
          rw [← h (key a)]
          simp
        have hb : b ∈ (a :: as).filter (fun e => decide (key e = key b)) := by
          rw [h (key b)]
          simp
        have ha2 : a ∈ bs := by
          rcases List.mem_cons.1 (List.mem_of_mem_filter ha) with e | e
          · exact absurd (congrArg key e).symm hne
          · exact e
        have hb2 : b ∈ as := by
          rcases List.mem_cons.1 (List.mem_of_mem_filter hb) with e | e
          · exact absurd (congrArg key e) hne
          · exact e
        have k1 : key a ≤ key b := (List.pairwise_cons.1 h2).1 a ha2
        have k2 : key b ≤ key a := (List.pairwise_cons.1 h1).1 b hb2
        exact hne (le_antisymm k2 k1)
      have hhead : a = b := by
        have := h (key a)
        simp [hab] at this
        exact this.1
      subst hhead
      have htail : ∀ t : Int, as.filter (fun e => decide (key e = t))
          = bs.filter (fun e => decide (key e = t)) := by
        intro t
        have := h t
        by_cases hk : key a = t
        · simpa [hk] using this
        · simpa [hk] using this
      rw [stable_descending_unique key as bs (List.pairwise_cons.1 h1).2
        (List.pairwise_cons.1 h2).2 htail]

/-! ## Claims -/

/-- C1: for every snapshot the flattening loop ends without raising, and the list it builds
has as many entries as the `reservation` arrays of the documents that have one hold
together; a document whose data is `undefined` or `null`, or whose `reservation` field is
anything but an array (absent, null, another shape), leaves the list as it was, and a
document with an array adds exactly one entry per element. -/
theorem flatten_total_and_length (snapshot : List DocSnapshot) :
    (∃ out, flatten snapshot = .ok out ∧ out.length = (snapshot.map entryCount).sum) ∧
    (∀ (acc : List Fields) (id : String),
      flattenDoc acc (DocSnapshot.mk id .undefined) = .ok acc ∧
      flattenDoc acc (DocSnapshot.mk id .null) = .ok acc ∧
      (∀ fs, isArray (lookupField fs "reservation") = false →
        flattenDoc acc (DocSnapshot.mk id (.obj fs)) = .ok acc ∧
        entryCount (DocSnapshot.mk id (.obj fs)) = 0) ∧
      (∀ fs entries, lookupField fs "reservation" = .arr entries →
        ∃ added, flattenDoc acc (DocSnapshot.mk id (.obj fs)) = .ok (acc ++ added) ∧
          added.length = entries.length ∧
          entryCount (DocSnapshot.mk id (.obj fs)) = entries.length)) := by
  refine ⟨⟨snapshot.flatMap contribution, flatten_eq snapshot,
    length_flatMap_contribution snapshot⟩, ?_⟩
  intro acc id
  refine ⟨?_, ?_, ?_, ?_⟩
  · simp [flattenDoc_eq, contribution, reservationArray]
  · simp [flattenDoc_eq, contribution, reservationArray]
  · intro fs hfs
    cases h : lookupField fs "reservation" <;>
      simp_all [flattenDoc_eq, contribution, reservationArray, entryCount, isArray]
  · intro fs entries hfs
    refine ⟨entries.map (tagEntry id), ?_, by simp, ?_⟩
    · simp [flattenDoc_eq, contribution, reservationArray, hfs]
    · simp [entryCount, reservationArray, hfs]

theorem compareReservations_total (H : Host) (a b : Fields) (ha : Resolvable a)
    (hb : Resolvable b) : ∃ v, compareReservations H a b = .ok v := by
  obtain ⟨ra, hra⟩ := ha
  obtain ⟨rb, hrb⟩ := hb
  have ea : ∃ d, effectiveDate H a = .ok d := by
    unfold effectiveDate
    simp only []
    rw [hra, ok_bind]
    cases ra <;> exact ⟨_, rfl⟩
  have eb : ∃ d, effectiveDate H b = .ok d := by
    unfold effectiveDate
    simp only []
    rw [hrb, ok_bind]
    cases rb <;> exact ⟨_, rfl⟩
  obtain ⟨da, hda⟩ := ea
  obtain ⟨db, hdb⟩ := eb
  exact ⟨dateDiff db da, by unfold compareReservations; rw [hda, ok_bind, hdb, ok_bind]; rfl⟩

/-- C2: whenever the snapshot callback hands a list to `renderReservationData`, that list is
a rearrangement of the tagged copies taken over all documents and all entries of their
`reservation` arrays (one copy per stored entry, none lost, none repeated), and each of its
entries is the copy of an entry of some document's array, has that document's key in
`userId` (whatever `userId` the stored entry had) and agrees with the stored entry on every
other field. A list is handed on whenever the comparator can resolve a date for every
copy. -/
theorem renderedList_traces (H : Host) (snapshot : List DocSnapshot) :
    (∀ out, renderedList H snapshot = .ok out →
      out.Perm (snapshot.flatMap
        (fun d => ((reservationArray d).getD []).map (tagEntry d.id))) ∧
      ∀ x ∈ out, ∃ d ∈ snapshot, ∃ entries, reservationArray d = some entries ∧
        ∃ e ∈ entries, x = tagEntry d.id e ∧
          lookupField x "userId" = .str d.id ∧
          ∀ k, k ≠ "userId" → lookupField x k = lookupField (ownFields e) k) ∧
    ((∀ d ∈ snapshot, ∀ e ∈ (reservationArray d).getD [], Resolvable (tagEntry d.id e)) →
      ∃ out, renderedList H snapshot = .ok out) := by
  have hc : (fun d : DocSnapshot => ((reservationArray d).getD []).map (tagEntry d.id))
      = contribution := by
    funext d
    unfold contribution
    cases reservationArray d <;> rfl
  constructor
  · intro out h
    rw [renderedList_eq] at h
    have hperm : out.Perm (snapshot.flatMap contribution) := arraySort_perm _ _ _ h
    refine ⟨by rw [hc]; exact hperm, ?_⟩
    intro x hx
    have hx2 : x ∈ snapshot.flatMap contribution := hperm.subset hx
    obtain ⟨d, hd, hxd⟩ := List.mem_flatMap.1 hx2
    obtain ⟨entries, hent, e, he, rfl⟩ := mem_contribution d x hxd
    exact ⟨d, hd, entries, hent, e, he, rfl, tagEntry_userId _ _,
      fun k hk => tagEntry_other _ _ k hk⟩
  · intro hall
    rw [renderedList_eq]
    apply arraySort_total (compareReservations H) Resolvable
      (fun x y hx hy => compareReservations_total H x y hx hy)
    intro x hx
    obtain ⟨d, hd, hxd⟩ := List.mem_flatMap.1 hx
    obtain ⟨entries, hent, e, he, rfl⟩ := mem_contribution d x hxd
    exact hall d hd e (by rw [hent]; exact he)

/-- Witness of C2 on the scenario snapshot under the sample host. -/
theorem renderedList_traces_witness :
    renderedList sampleHost scenarioSnapshot
        = .ok [taggedEntry "a2" mar1 "A", taggedEntry "b1" feb1 "B", taggedEntry "a1" jan1 "A"] ∧
    (List.Perm [taggedEntry "a2" mar1 "A", taggedEntry "b1" feb1 "B", taggedEntry "a1" jan1 "A"]
      (scenarioSnapshot.flatMap
        (fun d => ((reservationArray d).getD []).map (tagEntry d.id)))) :=
  ⟨rfl, ((renderedList_traces sampleHost scenarioSnapshot).1 _ rfl).1⟩

theorem scenario_order (H : Host) :
    renderedList H scenarioSnapshot
      = .ok [taggedEntry "a2" mar1 "A", taggedEntry "b1" feb1 "B", taggedEntry "a1" jan1 "A"] :=
  rfl

/-- C3: on a flattened list whose entries all resolve to valid dates the sort ends normally
with a rearrangement of its input that is descending and stable: an entry with a later
date stands before every entry with an earlier one, entries of equal date keep their input
order, every permutation of the input gives the same sequence of dates, and no other
arrangement of the input is both descending and stable, so the result does not depend on
the sorting procedure. -/
theorem sortReservations_stable_descending (H : Host) (l : List Fields)
    (hvalid : ∀ e ∈ l, ValidDate H e) :
    ∃ out, sortReservations H l = .ok out ∧ out.Perm l ∧
      (∀ (i j : Nat) (hi : i < out.length) (hj : j < out.length),
          dateOf H out[j] < dateOf H out[i] → i < j) ∧
      (∀ t : Int, out.filter (fun e => decide (dateOf H e = t))
          = l.filter (fun e => decide (dateOf H e = t))) ∧
      (∀ l2 : List Fields, l2.Perm l → ∃ out2, sortReservations H l2 = .ok out2 ∧
          out2.Perm out ∧ out2.map (dateOf H) = out.map (dateOf H)) ∧
      (∀ other : List Fields, other.Pairwise (fun a b => dateOf H b ≤ dateOf H a) →
          (∀ t : Int, other.filter (fun e => decide (dateOf H e = t))
            = l.filter (fun e => decide (dateOf H e = t))) →
          other = out) := by
  have hdesc := descending_insertionSort_reverse H l.reverse
  have hperm : (List.insertionSort (fun a b => dateOf H a ≤ dateOf H b) l.reverse).reverse.Perm l :=
    (List.reverse_perm _).trans ((List.perm_insertionSort _ _).trans (List.reverse_perm _))
  have hstable : ∀ t : Int,
      (List.insertionSort (fun a b => dateOf H a ≤ dateOf H b) l.reverse).reverse.filter
          (fun e => decide (dateOf H e = t))
        = l.filter (fun e => decide (dateOf H e = t)) := by
    intro t
    rw [List.filter_reverse, filter_insertionSort, List.filter_reverse, List.reverse_reverse]
  refine ⟨_, sortReservations_valid H l hvalid, hperm, ?_, hstable, ?_, ?_⟩
  · intro i j hi hj hlt
    by_contra hij
    have hji : j ≤ i := Nat.le_of_not_lt hij
    rcases Nat.lt_or_eq_of_le hji with hji | hji
    · have := List.pairwise_iff_getElem.1 hdesc j i hj hi hji
      omega
    · subst hji
      omega
  · intro l2 hl2
    have hvalid2 : ∀ e ∈ l2, ValidDate H e := fun e he => hvalid e (hl2.subset he)
    have hperm2 : (List.insertionSort (fun a b => dateOf H a ≤ dateOf H b)
        l2.reverse).reverse.Perm l2 :=
      (List.reverse_perm _).trans ((List.perm_insertionSort _ _).trans (List.reverse_perm _))
    have hpp := hperm2.trans (hl2.trans hperm.symm)
    exact ⟨_, sortReservations_valid H l2 hvalid2, hpp,
      descending_keys_unique H _ _ hpp (descending_insertionSort_reverse H l2.reverse) hdesc⟩
  · intro other hother hfilter
    exact stable_descending_unique (dateOf H) other _ hother hdesc
      (fun t => (hfilter t).trans (hstable t).symm)

/-- Witness of C3: the scenario of the specification. The three flattened entries resolve to
valid dates and the sort returns them as 2024-03-01 (A), 2024-02-01 (B), 2024-01-01 (A); with
the dates stored as strings the callback hands on the same order. -/
theorem sortReservations_stable_descending_witness :
    renderedList sampleHost scenarioIsoSnapshot
      = .ok [ [("reservationDate", .str "2024-03-01"), ("userId", .str "A")],
              [("reservationDate", .str "2024-02-01"), ("userId", .str "B")],
              [("reservationDate", .str "2024-01-01"), ("userId", .str "A")] ] ∧
    (∀ e ∈ [taggedEntry "a1" jan1 "A", taggedEntry "a2" mar1 "A", taggedEntry "b1" feb1 "B"],
      ValidDate sampleHost e) ∧
    sortReservations sampleHost
        [taggedEntry "a1" jan1 "A", taggedEntry "a2" mar1 "A", taggedEntry "b1" feb1 "B"]
      = .ok [taggedEntry "a2" mar1 "A", taggedEntry "b1" feb1 "B", taggedEntry "a1" jan1 "A"] ∧
    (∃ out, sortReservations sampleHost
        [taggedEntry "a1" jan1 "A", taggedEntry "a2" mar1 "A", taggedEntry "b1" feb1 "B"]
          = .ok out ∧
      ∀ (i j : Nat) (hi : i < out.length) (hj : j < out.length),
        dateOf sampleHost out[j] < dateOf sampleHost out[i] → i < j) := by
  have hv : ∀ e ∈ [taggedEntry "a1" jan1 "A", taggedEntry "a2" mar1 "A",
      taggedEntry "b1" feb1 "B"], ValidDate sampleHost e := by
    intro e he
    simp only [List.mem_cons, List.mem_singleton, List.not_mem_nil, or_false] at he
    rcases he with rfl | rfl | rfl
    · exact ⟨jan1, rfl⟩
    · exact ⟨mar1, rfl⟩
    · exact ⟨feb1, rfl⟩
  obtain ⟨out, hout, _, hidx, _, _, _⟩ := sortReservations_stable_descending sampleHost _ hv
  exact ⟨rfl, hv, rfl, out, hout, hidx⟩

theorem strictEq_str (v : JSVal) (s : String) : strictEq v (.str s) = true ↔ v = .str s := by
  cases v <;> simp [strictEq]

theorem checkAdminRoleTry_true (getDoc : String → ReadOutcome) (userId : String) :
    checkAdminRoleTry getDoc userId = .ok true ↔
      ∃ userDoc, getDoc userId = .fulfilled userDoc ∧ userDoc.present = true ∧
        getField userDoc.data "role" = .str "admin" := by
  unfold checkAdminRoleTry
  cases getDoc userId with
  | failed error => simp [throw, throwThe, MonadExceptOf.throw]
  | fulfilled userDoc =>
    obtain ⟨present, data⟩ := userDoc
    cases present with
    | false => simp [pure, Except.pure]
    | true =>
      have hs := strictEq_str (getField data "role") "admin"
      by_cases hq : strictEq (getField data "role") (.str "admin") = true
      · have hrole := hs.1 hq
        cases data <;>
          simp_all [getProp, getField, pure, Except.pure, bind, Except.bind]
      · have hrole : ¬ getField data "role" = .str "admin" := fun h => hq (hs.2 h)
        cases data <;>
          simp_all [getProp, getField, pure, Except.pure, bind, Except.bind]

/-- C5: for every identity id and every outcome of the profile read `checkAdminRole`
resolves (it never rejects), and it resolves to `true` exactly when the read succeeded, the
record exists and its `role` field is the string `admin`; a failed read, a missing record
and any other role value give `false`. -/
theorem checkAdminRole_fail_closed (getDoc : String → ReadOutcome) (userId : String) :
    (∃ b, (checkAdminRole getDoc userId).1 = .resolved b) ∧
    ((checkAdminRole getDoc userId).1 = .resolved true ↔
      ∃ userDoc, getDoc userId = .fulfilled userDoc ∧ userDoc.present = true ∧
        getField userDoc.data "role" = .str "admin") ∧
    ((¬ ∃ userDoc, getDoc userId = .fulfilled userDoc ∧ userDoc.present = true ∧
        getField userDoc.data "role" = .str "admin") →
      (checkAdminRole getDoc userId).1 = .resolved false) ∧
    (∀ error, getDoc userId = .failed error →
      (checkAdminRole getDoc userId).1 = .resolved false) ∧
    (∀ data, getDoc userId = .fulfilled (UserDoc.mk false data) →
      (checkAdminRole getDoc userId).1 = .resolved false) := by
  have key := checkAdminRoleTry_true getDoc userId
  have hres : (checkAdminRole getDoc userId).1 = .resolved true
      ↔ checkAdminRoleTry getDoc userId = .ok true := by
    unfold checkAdminRole
    cases h : checkAdminRoleTry getDoc userId with
    | error e => simp
    | ok b => simp
  have hcases : (checkAdminRole getDoc userId).1 = .resolved true ∨
      (checkAdminRole getDoc userId).1 = .resolved false := by
    unfold checkAdminRole
    cases h : checkAdminRoleTry getDoc userId with
    | error e => simp
    | ok b => cases b <;> simp
  have hno : (¬ ∃ userDoc, getDoc userId = .fulfilled userDoc ∧ userDoc.present = true ∧
      getField userDoc.data "role" = .str "admin") →
      (checkAdminRole getDoc userId).1 = .resolved false := by
    intro hno
    rcases hcases with h | h
    · exact absurd ((hres.trans key).1 h) hno
    · exact h
  refine ⟨?_, hres.trans key, hno, ?_, ?_⟩
  · rcases hcases with h | h
    · exact ⟨true, h⟩
    · exact ⟨false, h⟩
  · intro error herr
    apply hno
    rintro ⟨userDoc, hd, _, _⟩
    rw [herr] at hd
    cases hd
  · intro data hdata
    apply hno
    rintro ⟨userDoc, hd, hp, _⟩
    rw [hdata] at hd
    cases hd
    cases hp

/-- C4 fails on the code: for a signed-in identity whose admin check resolved to `false`,
when the forced `signOut` rejects the callback stops after the notification and the
`signOut` call; the redirect to `index.html`, which the branch is there to make, does not
follow. -/
theorem nonAdmin_signOut_rejected_no_redirect :
    (checkAdminRole nonAdminStore sampleUser.uid).1 = .resolved false ∧
    onAuthStateChangedCallback sampleHost nonAdminStore (some sampleUser) false
      = [.checkAdmin "u1", .alert "관리자 권한이 필요합니다.", .signOut] ∧
    Effect.redirect "index.html"
      ∉ onAuthStateChangedCallback sampleHost nonAdminStore (some sampleUser) false ∧
    Effect.setupRealtimeListener
      ∉ onAuthStateChangedCallback sampleHost nonAdminStore (some sampleUser) false ∧
    onAuthStateChangedCallback sampleHost nonAdminStore (some sampleUser) true
      = [.checkAdmin "u1", .alert "관리자 권한이 필요합니다.", .signOut,
         .redirect "index.html"] :=
  ⟨rfl, rfl, by decide, by decide, rfl⟩

/-- The gate of the auth-state callback: `setupRealtimeListener` is called exactly for a
signed-in identity whose admin check resolved to `true`; for a signed-in identity whose
check resolved to `false` and whose forced `signOut` resolves, the steps are the admin
check, the notification, the `signOut` and the redirect to `index.html`; for a signed-out
state the steps are a notification and the redirect, with no admin check. -/
theorem auth_gate (H : Host) (getDoc : String → ReadOutcome) (user : Option User)
    (signOutResolves : Bool) :
    (Effect.setupRealtimeListener ∈ onAuthStateChangedCallback H getDoc user signOutResolves
      ↔ ∃ u, user = some u ∧ (checkAdminRole getDoc u.uid).1 = .resolved true) ∧
    (∀ u, user = some u → (checkAdminRole getDoc u.uid).1 = .resolved false →
      signOutResolves = true →
      onAuthStateChangedCallback H getDoc user signOutResolves
        = [.checkAdmin u.uid, .alert "관리자 권한이 필요합니다.", .signOut,
           .redirect "index.html"]) ∧
    (user = none →
      onAuthStateChangedCallback H getDoc user signOutResolves
        = [.alert "로그인이 필요합니다.", .redirect "index.html"] ∧
      ∀ uid, Effect.checkAdmin uid
        ∉ onAuthStateChangedCallback H getDoc user signOutResolves) := by
  refine ⟨?_, ?_, ?_⟩
  · cases user with
    | none => simp [onAuthStateChangedCallback]
    | some u =>
      simp only [onAuthStateChangedCallback]
      cases hc : (checkAdminRole getDoc u.uid).1 with
      | rejected e => simp [hc]
      | resolved isAdmin =>
        cases isAdmin <;> cases signOutResolves <;> simp [hc]
  · rintro u rfl hc rfl
    simp [onAuthStateChangedCallback, hc]
  · rintro rfl
    simp [onAuthStateChangedCallback]

theorem foldl_rows (H : Host) :
    ∀ (rs : List Fields) (pg : Page),
      rs.foldl (fun pg reservation =>
          Page.mk pg.statusDisplay (pg.userDataList ++ [reservationRow H reservation])) pg
        = Page.mk pg.statusDisplay (pg.userDataList ++ rs.map (reservationRow H))
  | [], pg => by simp
  | r :: rs, pg => by
    rw [List.foldl_cons, foldl_rows H rs]
    simp

theorem renderReservationData_some (H : Host) (rs : List Fields) (page : Page) :
    renderReservationData H (some rs) page
      = Page.mk page.statusDisplay (rs.map (reservationRow H)) := by
  simp [renderReservationData, strictEq, foldl_rows]

/-- C6 fails on the code: given the empty list, `renderReservationData` leaves
`userDataList` with no row at all; the placeholder row is written only when the argument
itself is absent. An empty snapshot therefore renders zero rows. -/
theorem render_empty_list_no_placeholder (H : Host) (page : Page) :
    renderReservationData H (some []) page = Page.mk page.statusDisplay [] ∧
    (renderReservationData H none page).userDataList = [placeholderRow] ∧
    onSnapshotNext H [] page
      = .ok (Page.mk (page.statusDisplay.map (fun _ => countStatus 0)) []) :=
  ⟨rfl, rfl, rfl⟩

/-- For every list given, `renderReservationData` replaces the rows of `userDataList` by one
row per entry, in list order, each with the markup of the row template. -/
theorem render_rows (H : Host) (rs : List Fields) (page : Page) :
    (renderReservationData H (some rs) page).userDataList = rs.map (reservationRow H) ∧
    (renderReservationData H (some rs) page).userDataList.length = rs.length := by
  rw [renderReservationData_some]
  exact ⟨rfl, by simp⟩

/-- C7 fails on the code: for an entry without an `amount` field the price cell holds
`없음원`, where `formatPrice` itself answers `없음` and the four other cells show `없음`; and
since stored values go into the markup of the row as they are, a customer name that
holds markup gives the row six opening cell tags instead of five. -/
theorem row_markup_defects :
    lookupField [("reservationId", JSVal.str "r1")] "amount" = .undefined ∧
    formatPrice sampleHost (lookupField [("reservationId", JSVal.str "r1")] "amount")
      = .str "없음" ∧
    (renderReservationData sampleHost (some [[("reservationId", .str "r1")]])
        (Page.mk none ["<td>earlier row</td>"])).userDataList
      = ["\n        <td>r1</td>\n        <td>없음</td>\n        <td>없음</td>"
          ++ "\n        <td>없음원</td>\n        <td>없음</td>\n        "] ∧
    openingCells (reservationRow sampleHost [("reservationId", .str "r1")]) = 5 ∧
    reservationRow sampleHost markupEntry
      = "\n        <td>r1</td>\n        <td>a</td><td>b</td>\n        <td>없음</td>"
          ++ "\n        <td>없음원</td>\n        <td>없음</td>\n        " ∧
    openingCells (reservationRow sampleHost markupEntry) = 6 :=
  ⟨rfl, rfl, by decide, by decide, by decide, by decide⟩

/-- The comparator answers `NaN` as soon as one of the two dates is invalid. -/
theorem compareReservations_invalid (H : Host) (a b : Fields) (da db : Option Int)
    (ha : effectiveDate H a = .ok da) (hb : effectiveDate H b = .ok db)
    (hnone : da = none ∨ db = none) :
    compareReservations H a b = .ok .nan := by
  unfold compareReservations
  rw [ha, ok_bind, hb, ok_bind]
  rcases hnone with rfl | rfl
  · cases db <;> rfl
  · cases da <;> rfl

/-- C8 fails on the code: with two entries of invalid date between them, a reservation
dated 2024-01-01 stays before one dated 2024-03-01. The comparator answers `NaN` whenever one
side is invalid, which the sort reads as equal, so every neighbouring pair of this input
already counts as ordered. -/
theorem mixed_dates_not_descending (H : Host) :
    renderedList H mixedSnapshot
      = .ok [taggedEntry "r1" jan1 "A", undatedEntry "r2" "A", undatedEntry "r3" "A",
             taggedEntry "r4" mar1 "A"] ∧
    effectiveDate H (taggedEntry "r1" jan1 "A") = .ok (some jan1) ∧
    effectiveDate H (undatedEntry "r2" "A") = .ok none ∧
    effectiveDate H (undatedEntry "r3" "A") = .ok none ∧
    effectiveDate H (taggedEntry "r4" mar1 "A") = .ok (some mar1) ∧
    compareReservations H (taggedEntry "r1" jan1 "A") (undatedEntry "r2" "A") = .ok .nan ∧
    compareReservations H (undatedEntry "r2" "A") (undatedEntry "r3" "A") = .ok .nan ∧
    compareReservations H (undatedEntry "r3" "A") (taggedEntry "r4" mar1 "A") = .ok .nan ∧
    jan1 < mar1 :=
  ⟨rfl, rfl, rfl, rfl, rfl, rfl, rfl, rfl, by decide⟩

theorem append_minute_ne (s : String) : s ++ "분" ≠ "날짜 오류" := by
  intro h
  have h1 := congrArg String.data h
  have h2 := congrArg List.getLast? h1
  simp at h2

/-- The date error text is returned exactly for a truthy value whose date, as `formatDate`
resolves it, is invalid. -/
theorem formatDate_dateError_iff (H : Host) (v : JSVal) :
    formatDate H v = "날짜 오류" ↔ truthy v = true ∧ formatDateResolve H v = none := by
  unfold formatDate
  cases hv : truthy v
  · simp
  · cases hr : formatDateResolve H v with
    | none => simp
    | some t =>
      simp only [Bool.not_true, Bool.false_eq_true, if_false, true_and]
      constructor
      · intro h
        exact absurd h (append_minute_ne _)
      · intro h
        cases h

/-- Outside the two shapes below the two resolutions agree: when `v` has no truthy `seconds`
field and no `toDate` field that is not a function, the comparator resolves the date that
`formatDate` resolves. -/
theorem resolve_agrees (H : Host) (v : JSVal) (hs : truthy (getField v "seconds") = false)
    (ht : looseEqNull (getField v "toDate") = true) :
    effectiveDate H [("reservationDate", v)] = .ok (formatDateResolve H v) := by
  cases v <;>
    simp_all [effectiveDate, lookupField, optionalToDate, formatDateResolve, getField, bind,
      Except.bind, pure, Except.pure]

/-- C9 fails on the code: for a date stored as a plain map with a `seconds` field,
`formatDate` builds a valid date from the seconds, while the comparator of the sort, which
has no such branch, builds a date from the map itself and gets an invalid one; so the row
shows a date and is sorted as if it had none. For a map whose `toDate` field is no function
the comparator raises a `TypeError` where `formatDate` answers with the date error text. -/
theorem seconds_object_diverges :
    truthy secondsObject = true ∧
    (∀ H : Host, formatDateResolve H secondsObject = some 1700000000000) ∧
    (∀ H : Host, effectiveDate H [("reservationDate", secondsObject)]
      = .ok (H.dateParse (H.objectToPrimitive secondsObject))) ∧
    (∀ H : Host, H.dateParse (H.objectToPrimitive secondsObject) = none →
      effectiveDate H [("reservationDate", secondsObject)] = .ok none ∧
      formatDate H secondsObject ≠ "날짜 오류") ∧
    sampleHost.objectToPrimitive secondsObject = "[object Object]" ∧
    effectiveDate sampleHost [("reservationDate", secondsObject)] = .ok none ∧
    formatDate sampleHost secondsObject = "2023년 11월 14일 22: 13분" ∧
    formatDate sampleHost secondsObject ≠ "날짜 오류" ∧
    (∀ H : Host, effectiveDate H [("reservationDate", toDateStringObject)]
      = .error (.typeError "a.reservationDate?.toDate is not a function")) ∧
    formatDate sampleHost toDateStringObject = "날짜 오류" :=
  ⟨rfl, fun _ => rfl, fun _ => rfl,
    fun H hp => ⟨congrArg Except.ok hp, fun h => by
      have := ((formatDate_dateError_iff H secondsObject).1 h).2
      cases this⟩,
    rfl, rfl, rfl, by decide, fun _ => rfl, rfl⟩

theorem strictEq_empty (v : JSVal) : strictEq v (.str "") = true ↔ v = .str "" :=
  strictEq_str v ""

theorem looseEqNull_iff (v : JSVal) : looseEqNull v = true ↔ v = .null ∨ v = .undefined := by
  cases v <;> simp [looseEqNull]

theorem isNaN_iff (n : JSNum) : isNaN n = true ↔ n = .nan := by
  cases n <;> simp [isNaN]

/-- Taking the commas out of a grouped digit sequence gives the digits back. -/
theorem filter_groupReversed :
    ∀ ds : List Char, (',' ∉ ds) →
      (groupReversed ds).filter (fun c => decide (c ≠ ',')) = ds
  | [], _ => rfl
  | [a], h => by
    have ha : a ≠ ',' := fun e => h (by simp [e])
    simp [groupReversed, ha]
  | [a, b], h => by
    have ha : a ≠ ',' := fun e => h (by simp [e])
    have hb : b ≠ ',' := fun e => h (by simp [e])
    simp [groupReversed, ha, hb]
  | [a, b, c], h => by
    have ha : a ≠ ',' := fun e => h (by simp [e])
    have hb : b ≠ ',' := fun e => h (by simp [e])
    have hc : c ≠ ',' := fun e => h (by simp [e])
    simp [groupReversed, ha, hb, hc]
  | a :: b :: c :: d :: rest, h => by
    have ha : a ≠ ',' := fun e => h (by simp [e])
    have hb : b ≠ ',' := fun e => h (by simp [e])
    have hc : c ≠ ',' := fun e => h (by simp [e])
    have hrest : ',' ∉ d :: rest := fun e => h (by simp [e])
    have ih := filter_groupReversed (d :: rest) hrest
    simp only [groupReversed, List.filter_cons, ih]
    simp [ha, hb, hc]

theorem digitChar_ne_comma : ∀ m : Nat, m < 10 → Nat.digitChar m ≠ ',' := by
  decide

theorem comma_not_mem_toDigitsCore :
    ∀ (fuel n : Nat) (ds : List Char), (',' ∉ ds) → ',' ∉ Nat.toDigitsCore 10 fuel n ds
  | 0, _, ds, h => by simpa [Nat.toDigitsCore] using h
  | fuel + 1, n, ds, h => by
    have hd : ',' ∉ Nat.digitChar (n % 10) :: ds := by
      intro hm
      rcases List.mem_cons.1 hm with e | e
      · exact digitChar_ne_comma _ (Nat.mod_lt n (by decide)) e.symm
      · exact h e
    unfold Nat.toDigitsCore
    by_cases h0 : n / 10 = 0
    · simp only [h0, if_true]
      exact hd
    · simp only [h0, if_false]
      exact comma_not_mem_toDigitsCore fuel (n / 10) _ hd

theorem comma_not_mem_toDigits (n : Nat) : ',' ∉ Nat.toDigits 10 n :=
  comma_not_mem_toDigitsCore _ _ [] (by simp)

theorem groupThousands_digits (n : Nat) :
    (groupThousands n).data.filter (fun c => decide (c ≠ ',')) = Nat.toDigits 10 n := by
  have hrev : ',' ∉ (Nat.toDigits 10 n).reverse := by
    simpa using comma_not_mem_toDigits n
  have := filter_groupReversed (Nat.toDigits 10 n).reverse hrev
  simp only [groupThousands]
  rw [List.filter_reverse, this, List.reverse_reverse]

/-- C10: `formatPrice` has three cases. For `null`, `undefined` and the empty string it
returns `없음`; for any other input whose numeric conversion is `NaN` it returns the input
itself; for any other input it returns the won format of the numeric value, which is the
narrow symbol `₩` (after the sign) followed by the digits grouped in threes by commas; in
particular `formatPrice(1000)` is `₩1,000`, which contains `1,000`. -/
theorem formatPrice_contract (H : Host) (price : JSVal) :
    (price = .null ∨ price = .undefined ∨ price = .str "" → formatPrice H price = .str "없음") ∧
    (price ≠ .null → price ≠ .undefined → price ≠ .str "" → toNumber H price = .nan →
      formatPrice H price = price) ∧
    (price ≠ .null → price ≠ .undefined → price ≠ .str "" → toNumber H price ≠ .nan →
      formatPrice H price = .str (wonFormat (toNumber H price))) ∧
    (∀ n : Int, wonFormat (.int n)
      = (if n < 0 then "-₩" else "₩") ++ groupThousands n.natAbs) ∧
    (∀ n : Nat, (groupThousands n).data.filter (fun c => decide (c ≠ ','))
      = (toString n).data) ∧
    formatPrice H (.num (.int 1000)) = .str "₩1,000" ∧
    formatPrice H (.num (.int 1234567)) = .str "₩1,234,567" ∧
    (∃ before after : String,
      formatPrice H (.num (.int 1000)) = .str (before ++ "1,000" ++ after)) := by
  refine ⟨?_, ?_, ?_, fun _ => rfl, ?_, rfl, rfl, ⟨"₩", "", rfl⟩⟩
  · rintro (rfl | rfl | rfl) <;> rfl
  · intro h1 h2 h3 hnan
    have hl : looseEqNull price = false := by
      cases h : looseEqNull price
      · rfl
      · rcases (looseEqNull_iff price).1 h with e | e
        · exact absurd e h1
        · exact absurd e h2
    have he : strictEq price (.str "") = false := by
      cases h : strictEq price (.str "")
      · rfl
      · exact absurd ((strictEq_empty price).1 h) h3
    simp [formatPrice, hl, he, hnan, isNaN]
  · intro h1 h2 h3 hnum
    have hl : looseEqNull price = false := by
      cases h : looseEqNull price
      · rfl
      · rcases (looseEqNull_iff price).1 h with e | e
        · exact absurd e h1
        · exact absurd e h2
    have he : strictEq price (.str "") = false := by
      cases h : strictEq price (.str "")
      · rfl
      · exact absurd ((strictEq_empty price).1 h) h3
    have hn : isNaN (toNumber H price) = false := by
      cases h : isNaN (toNumber H price)
      · rfl
      · exact absurd ((isNaN_iff _).1 h) hnum
    simp [formatPrice, hl, he, hn]
  · intro n
    rw [groupThousands_digits]
    rfl

end AdminPage
